import Mathlib

/-!
Shallow embedding of the ERC-721 NFT chaincode
(`token-erc-721/chaincode-go/token_erc_721.go`).

The ledger is modelled as an association list from keys to stored values;
composite keys (`CreateCompositeKey`) are kept distinct from plain keys.
JSON-serialized records are modelled by the structured values themselves
(serialization round-trips are the identity in this model); storage-layer
failures (`GetState`/`PutState`/`CreateCompositeKey` errors) are outside the
model, so the corresponding error branches of the source are unreachable here.
Each operation takes the transaction context (caller identity and MSP ID) and
the ledger, and returns its result, the new ledger, and the list of events it
emitted via `SetEvent`.
-/

namespace ERC721

/-- The `Token` struct of the source (JSON field names elided). -/
structure Token where
  TokenID : Int
  TokenURI : String
  Name : String
  Symbol : String
  Owner : String
  Approved : String
deriving DecidableEq, Repr

/-- The `eventtoken` struct (Transfer event payload); the source's `from` and
`to` fields are Lean keywords and are spelled `from_` and `to_` here. -/
structure eventtoken where
  from_ : String
  to_ : String
  TokenID : Int
deriving DecidableEq, Repr

/-- The `eventApprovedForAll` struct, used both as the stored operator-approval
record and as the ApprovalForAll event payload. -/
structure eventApprovedForAll where
  owner : String
  operator : String
  approved : Bool
deriving DecidableEq, Repr

/-- The `eventApproved` struct (Approval event payload). -/
structure eventApproved where
  owner : String
  approved : String
  TokenID : Int
deriving DecidableEq, Repr

/-- Ledger keys: plain state keys and composite keys built by
`CreateCompositeKey(objectType, attributes)`.  In Fabric composite keys live in
a namespace disjoint from plain keys, which the constructor split captures. -/
inductive Key where
  | simple (k : String)
  | composite (objectType : String) (attrs : List String)
deriving DecidableEq, Repr

/-- Values stored in the ledger: a JSON-encoded token record, a JSON-encoded
operator-approval record, the single null byte used as the balance-index
sentinel (`Buffer.from of the null character` in the source), or uninterpreted
bytes (for keys written outside this contract, e.g. identity-account keys). -/
inductive StoredValue where
  | tokenVal (t : Token)
  | approvalVal (a : eventApprovedForAll)
  | nullByte
  | rawBytes (s : String)
deriving DecidableEq, Repr

/-- The world state: an association list of key/value pairs.  `putState`
keeps keys unique. -/
def Ledger : Type := List (Key × StoredValue)

instance : DecidableEq Ledger := by
  unfold Ledger
  infer_instance

/-- `GetState`: point lookup. -/
def getState (l : Ledger) (k : Key) : Option StoredValue :=
  (l.find? (fun p => decide (p.1 = k))).map (fun p => p.2)

/-- `PutState`: overwrite the value at a key. -/
def putState (l : Ledger) (k : Key) (v : StoredValue) : Ledger :=
  (k, v) :: l.filter (fun p => decide (p.1 ≠ k))

/-- `DelState`: remove a key (a no-op if the key is absent, as in Fabric). -/
def deleteState (l : Ledger) (k : Key) : Ledger :=
  l.filter (fun p => decide (p.1 ≠ k))

/-- The empty world state. -/
def emptyLedger : Ledger := []

/-- `const approvalPrefix` of the source. -/
def approvalPrefixS : String := "approval"

/-- `const nftPrefix` of the source. -/
def nftPrefixS : String := "nft"

/-- `const balancePrefix` of the source. -/
def balancePrefixS : String := "balance"

/-- `CreateCompositeKey(nftPrefix, [tokenID])`. -/
def nftKey (TokenID : String) : Key := .composite nftPrefixS [TokenID]

/-- `CreateCompositeKey(balancePrefix, [owner, tokenID])`. -/
def balanceKey (owner TokenID : String) : Key :=
  .composite balancePrefixS [owner, TokenID]

/-- `CreateCompositeKey(approvalPrefix, [owner, operator])`. -/
def approvalKey (owner operator : String) : Key :=
  .composite approvalPrefixS [owner, operator]

/-- The transaction context: the caller's identity (`GetClientIdentity.getID`)
and MSP ID (`GetClientIdentity.getMSPID`). -/
structure Ctx where
  clientID : String
  clientMSPID : String
deriving DecidableEq, Repr

/-- Error taxonomy of the contract, one constructor per distinct
`fmt.Errorf` failure reason reachable in this model. -/
inductive Err where
  | clientNotAuthorized
  | cannotGetToken (tokenID : String) (inner : Err)
  | alreadyMinted (tokenID : String)
  | invalidTokenID (tokenID : String)
  | doesNotExist (tokenID : String)
  | unmarshalFailed
  | notAuthorizedOperator (from_ owner tokenID : String)
  | noOwnerAssigned (tokenID : String)
deriving DecidableEq, Repr

/-- An emitted event: the name passed to `SetEvent` plus the payload. -/
inductive Event where
  | transfer (t : eventtoken)
  | approval (a : eventApproved)
  | approvalForAll (a : eventApprovedForAll)
deriving DecidableEq, Repr

/-- The event log of one invocation: `SetEvent` name/payload pairs. -/
def Events : Type := List (String × Event)

instance : DecidableEq Events := by
  unfold Events
  infer_instance

/-- Accumulate decimal digits; fails on any non-digit (helper for `atoi?`). -/
def digitsVal? : List Char → Nat → Option Nat
  | [], acc => some acc
  | c :: cs, acc =>
      if c.isDigit then digitsVal? cs (acc * 10 + (c.toNat - 48)) else none

/-- Largest value of Go's 64-bit `int`. -/
def int64Max : Nat := 2 ^ 63 - 1

/-- Go's `strconv.Atoi`: optional sign, at least one digit, 64-bit range. -/
def atoi? (s : String) : Option Int :=
  match s.data with
  | [] => none
  | ['+'] => none
  | ['-'] => none
  | '+' :: cs =>
      (digitsVal? cs 0).bind fun n =>
        if n ≤ int64Max then some (Int.ofNat n) else none
  | '-' :: cs =>
      (digitsVal? cs 0).bind fun n =>
        if n ≤ int64Max + 1 then some (-(Int.ofNat n)) else none
  | cs =>
      (digitsVal? cs 0).bind fun n =>
        if n ≤ int64Max then some (Int.ofNat n) else none

/-- `ReadNFT`: look up the token record under the `nft` composite key; fail if
the key is absent or holds empty bytes, or if decoding fails; otherwise return
the decoded token (no check on the `owner` field). -/
def ReadNFT (l : Ledger) (TokenID : String) : Except Err Token :=
  match getState l (nftKey TokenID) with
  | none => .error (.doesNotExist TokenID)
  | some (.rawBytes "") => .error (.doesNotExist TokenID)
  | some (.tokenVal t) => .ok t
  | some _ => .error .unmarshalFailed

/-- The pure core of `IsApprovedForAll`: read the approval record for
(owner, operator); an absent or undecodable record yields `false` (the source
ignores the `json.Unmarshal` error, leaving the zero value). -/
def isApprovedForAllState (l : Ledger) (owner operator : String) : Bool :=
  match getState l (approvalKey owner operator) with
  | some (.approvalVal a) => a.approved
  | some _ => false
  | none => false

/-- `IsApprovedForAll`: its only error paths are storage failures, which are
outside this model, so it always returns `ok`. -/
def IsApprovedForAll (l : Ledger) (owner operator : String) :
    Except Err Bool :=
  .ok (isApprovedForAllState l owner operator)

/-- `MintWithTokenURI`: issuer-organization check, read the existing record
through `ReadNFT` (propagating its error), reject a non-empty owner as already
minted, parse the tokenID, then store the token record and the balance-index
entry and emit a Transfer event from the sentinel `0x0`. -/
def MintWithTokenURI (ctx : Ctx) (l : Ledger) (TokenID TokenURI : String) :
    Except Err Unit × Ledger × Events :=
  if ctx.clientMSPID ≠ "Org1MSP" then (.error .clientNotAuthorized, l, [])
  else
    let minter := ctx.clientID
    match ReadNFT l TokenID with
    | .error e => (.error (.cannotGetToken TokenID e), l, [])
    | .ok tokens =>
      if tokens.Owner ≠ "" then (.error (.alreadyMinted TokenID), l, [])
      else
        match atoi? TokenID with
        | none => (.error (.invalidTokenID TokenID), l, [])
        | some TokenIDInt =>
          let token : Token :=
            { TokenID := TokenIDInt, TokenURI := TokenURI, Name := ""
              Symbol := "", Owner := minter, Approved := "" }
          let l1 := putState l (nftKey TokenID) (.tokenVal token)
          let l2 := putState l1 (balanceKey minter TokenID) .nullByte
          let transferEvent : eventtoken :=
            { from_ := "0x0", to_ := minter, TokenID := TokenIDInt }
          (.ok (), l2, [("Transfer", .transfer transferEvent)])

/-- `TransferFrom`: parse the tokenID, read the token, authorize against the
`from` argument (owner, per-token approved, or operator-for-all of the owner —
the submitting identity is read but never checked), then overwrite the record
with owner `to` and empty approval, delete the balance entry keyed by `from`,
add one keyed by `to`, and emit a Transfer event. -/
def TransferFrom (ctx : Ctx) (l : Ledger) (from_ to_ TokenID : String) :
    Except Err Unit × Ledger × Events :=
  let _sender := ctx.clientID
  match atoi? TokenID with
  | none => (.error (.invalidTokenID TokenID), l, [])
  | some TokenIDInt =>
    match ReadNFT l TokenID with
    | .error e => (.error (.cannotGetToken TokenID e), l, [])
    | .ok tokens =>
      let owner := tokens.Owner
      let approved := tokens.Approved
      match IsApprovedForAll l owner from_ with
      | .error e => (.error e, l, [])
      | .ok operatorApproval =>
        if owner ≠ from_ ∧ approved ≠ from_ ∧ operatorApproval = false then
          (.error (.notAuthorizedOperator from_ owner TokenID), l, [])
        else
          let tokens1 := { tokens with Owner := to_, Approved := "" }
          let l1 := putState l (nftKey TokenID) (.tokenVal tokens1)
          let l2 := deleteState l1 (balanceKey from_ TokenID)
          let l3 := putState l2 (balanceKey to_ TokenID) .nullByte
          let transferEvent : eventtoken :=
            { from_ := from_, to_ := to_, TokenID := TokenIDInt }
          (.ok (), l3, [("Transfer", .transfer transferEvent)])

/-- `Approve`: parse the tokenID, read the token, require the `approved`
account to exist as a plain state key, require the sender to be the token's
owner or an operator-for-all of the owner, then store the record with the new
`Approved` field and emit an Approval event.  The source signals failure by
returning `false` (logging, not returning, the error). -/
def Approve (ctx : Ctx) (l : Ledger) (approved TokenID : String) :
    Bool × Ledger × Events :=
  match atoi? TokenID with
  | none => (false, l, [])
  | some TokenIDInt =>
    let sender := ctx.clientID
    match ReadNFT l TokenID with
    | .error _ => (false, l, [])
    | .ok tokens =>
      let tokenOwner := tokens.Owner
      match getState l (.simple approved) with
      | none => (false, l, [])
      | some _ =>
        match IsApprovedForAll l tokenOwner sender with
        | .error _ => (false, l, [])
        | .ok operatorApproval =>
          if sender ≠ tokenOwner ∧ operatorApproval = false then
            (false, l, [])
          else
            let tokens1 := { tokens with Approved := approved }
            let l1 := putState l (nftKey TokenID) (.tokenVal tokens1)
            let approvalEvent : eventApproved :=
              { owner := tokenOwner, approved := approved,
                TokenID := TokenIDInt }
            (true, l1, [("Approval", .approval approvalEvent)])

/-- `SetApprovalForAll`: unconditionally store the (sender, operator, approved)
record under the approval composite key and emit an ApprovalForAll event. -/
def SetApprovalForAll (ctx : Ctx) (l : Ledger) (operator : String)
    (approved : Bool) : Except Err Bool × Ledger × Events :=
  let sender := ctx.clientID
  let approval : eventApprovedForAll :=
    { owner := sender, operator := operator, approved := approved }
  let l1 := putState l (approvalKey sender operator) (.approvalVal approval)
  (.ok true, l1, [("ApprovalForAll", .approvalForAll approval)])

/-- `GetApproved`: read the token and return its `Approved` field. -/
def GetApproved (l : Ledger) (TokenID : String) : Except Err String :=
  match ReadNFT l TokenID with
  | .error e => .error (.cannotGetToken TokenID e)
  | .ok token => .ok token.Approved

/-- `OwnerOf`: read the token and return its `Owner` field, failing when the
owner is the empty string. -/
def OwnerOf (l : Ledger) (TokenID : String) : Except Err String :=
  match ReadNFT l TokenID with
  | .error e => .error (.cannotGetToken TokenID e)
  | .ok token =>
    if token.Owner = "" then .error (.noOwnerAssigned TokenID)
    else .ok token.Owner

/-- `Burn`: parse the tokenID, read the token, require the caller to be its
owner, then delete the record and the caller's balance entry and emit a
Transfer event to the sentinel `0x0`.  Failure is signalled by `false`. -/
def Burn (ctx : Ctx) (l : Ledger) (TokenID : String) :
    Bool × Ledger × Events :=
  let owner := ctx.clientID
  match atoi? TokenID with
  | none => (false, l, [])
  | some TokenIDInt =>
    match ReadNFT l TokenID with
    | .error _ => (false, l, [])
    | .ok token =>
      if token.Owner ≠ owner then (false, l, [])
      else
        let l1 := deleteState l (nftKey TokenID)
        let l2 := deleteState l1 (balanceKey owner TokenID)
        let transferEvent : eventtoken :=
          { from_ := owner, to_ := "0x0", TokenID := TokenIDInt }
        (true, l2, [("Transfer", .transfer transferEvent)])

/-- Whether a ledger entry is a balance-index entry whose first attribute is
`owner` (the partial composite key `balance.owner.*`). -/
def isBalanceEntryOf (owner : String) (p : Key × StoredValue) : Bool :=
  match p.1 with
  | .composite ot (o :: _) => ot = balancePrefixS ∧ o = owner
  | _ => false

/-- `BalanceOf`: count the ledger entries matching the partial composite key
`balance.Owner.*`. -/
def BalanceOf (l : Ledger) (Owner : String) : Nat :=
  (l.filter (isBalanceEntryOf Owner)).length

/-- `ClientAccountBalance`: the caller's own balance. -/
def ClientAccountBalance (ctx : Ctx) (l : Ledger) : Nat :=
  BalanceOf l ctx.clientID

/-- `ClientAccountID`: the caller's identity. -/
def ClientAccountID (ctx : Ctx) : String := ctx.clientID

/-- Whether a ledger entry is a decodable token record (under the `nft`
composite key) whose `Owner` field is `owner`. -/
def isTokenOwnedBy (owner : String) (p : Key × StoredValue) : Bool :=
  match p with
  | (.composite ot _, .tokenVal t) => ot = nftPrefixS ∧ t.Owner = owner
  | _ => false

/-- The number of token records whose owner field equals `owner`. -/
def ownedCount (l : Ledger) (owner : String) : Nat :=
  (l.filter (isTokenOwnedBy owner)).length

/-- The dispatchable operations of the contract, one constructor per public
contract function (arguments as at the invocation boundary). -/
inductive Op where
  | mintWithTokenURI (TokenID TokenURI : String)
  | transferFrom (from_ to_ TokenID : String)
  | approve (approved TokenID : String)
  | setApprovalForAll (operator : String) (approved : Bool)
  | isApprovedForAll (owner operator : String)
  | getApproved (TokenID : String)
  | ownerOf (TokenID : String)
  | burn (TokenID : String)
  | balanceOf (Owner : String)
  | clientAccountBalance
  | clientAccountID

/-- The result value of one invocation, tagged by shape. -/
inductive OpResult where
  | exceptUnit (r : Except Err Unit)
  | exceptBool (r : Except Err Bool)
  | exceptString (r : Except Err String)
  | boolRes (b : Bool)
  | natRes (n : Nat)
  | strRes (s : String)

/-- Everything one invocation produces: the returned value, the resulting
world state, and the emitted events. -/
structure Outcome where
  result : OpResult
  ledger : Ledger
  events : Events

/-- Run one operation against a caller context and a ledger snapshot.
Read-only operations leave the ledger unchanged and emit nothing. -/
def exec (op : Op) (ctx : Ctx) (l : Ledger) : Outcome :=
  match op with
  | .mintWithTokenURI T U =>
    let r := MintWithTokenURI ctx l T U
    ⟨.exceptUnit r.1, r.2.1, r.2.2⟩
  | .transferFrom f t T =>
    let r := TransferFrom ctx l f t T
    ⟨.exceptUnit r.1, r.2.1, r.2.2⟩
  | .approve a T =>
    let r := Approve ctx l a T
    ⟨.boolRes r.1, r.2.1, r.2.2⟩
  | .setApprovalForAll o a =>
    let r := SetApprovalForAll ctx l o a
    ⟨.exceptBool r.1, r.2.1, r.2.2⟩
  | .isApprovedForAll o p => ⟨.exceptBool (IsApprovedForAll l o p), l, []⟩
  | .getApproved T => ⟨.exceptString (GetApproved l T), l, []⟩
  | .ownerOf T => ⟨.exceptString (OwnerOf l T), l, []⟩
  | .burn T =>
    let r := Burn ctx l T
    ⟨.boolRes r.1, r.2.1, r.2.2⟩
  | .balanceOf O => ⟨.natRes (BalanceOf l O), l, []⟩
  | .clientAccountBalance => ⟨.natRes (ClientAccountBalance ctx l), l, []⟩
  | .clientAccountID => ⟨.strRes (ClientAccountID ctx), l, []⟩

/-- The step relation of the contract: one invocation against one snapshot,
related to the outcome it produces. -/
def Steps (op : Op) (ctx : Ctx) (l : Ledger) (o : Outcome) : Prop :=
  exec op ctx l = o

/-- A token with owner `A` and per-token approved party `B` (the state the
spec's mint followed by an approval would produce). -/
def tokenAB : Token :=
  { TokenID := 1, TokenURI := "u", Name := "", Symbol := ""
    Owner := "A", Approved := "B" }

/-- A ledger holding `tokenAB` together with its (consistent) balance-index
entry for owner `A`. -/
def ledgerAB : Ledger :=
  [(nftKey "1", .tokenVal tokenAB), (balanceKey "A" "1", .nullByte)]

/-- `ledgerAB` extended with an identity-account record for `B`, so that the
existence check in `Approve` finds the `approved` account. -/
def ledgerABacct : Ledger := (Key.simple "B", .rawBytes "acct") :: ledgerAB

/-- Reading back the key just written returns the written value. -/
theorem getState_putState_self (l : Ledger) (k : Key) (v : StoredValue) :
    getState (putState l k v) k = some v := by
  unfold getState putState
  rw [List.find?_cons_of_pos _ (by simp)]
  rfl

/-- Deleting a key leaves every other key unchanged. -/
theorem getState_deleteState_ne (l : Ledger) (k k' : Key) (h : k' ≠ k) :
    getState (deleteState l k) k' = getState l k' := by
  unfold getState deleteState
  rw [List.find?_filter]
  have hfun : (fun a : Key × StoredValue =>
      decide (decide (a.1 ≠ k) = true ∧ decide (a.1 = k') = true))
      = (fun p : Key × StoredValue => decide (p.1 = k')) := by
    funext a
    by_cases h1 : a.1 = k'
    · simp [h1]
      exact h
    · simp [h1]
  rw [hfun]

/-- A deleted key reads back as absent. -/
theorem getState_deleteState_self (l : Ledger) (k : Key) :
    getState (deleteState l k) k = none := by
  unfold getState deleteState
  rw [List.find?_filter]
  rw [List.find?_eq_none.mpr]
  · rfl
  · intro a _
    by_cases h1 : a.1 = k <;> simp [h1]

/-- Writing one key leaves every other key unchanged. -/
theorem getState_putState_ne (l : Ledger) (k k' : Key) (v : StoredValue)
    (h : k' ≠ k) : getState (putState l k v) k' = getState l k' := by
  have h2 := getState_deleteState_ne l k k' h
  unfold getState putState
  unfold getState deleteState at h2
  rw [List.find?_cons_of_neg _ (by simp; exact fun hh => h hh.symm)]
  exact h2

/-- The `nft` and `balance` composite-key namespaces are disjoint. -/
theorem nftKey_ne_balanceKey (o T T' : String) :
    balanceKey o T' ≠ nftKey T := by
  intro h
  simp [nftKey, balanceKey, nftPrefixS, balancePrefixS] at h

/-- The `nft` and `approval` composite-key namespaces are disjoint. -/
theorem approvalKey_ne_nftKey (o p T : String) :
    nftKey T ≠ approvalKey o p := by
  intro h
  simp [nftKey, approvalKey, nftPrefixS, approvalPrefixS] at h

end ERC721

namespace ERC721


/-- C1: the balance index drifts from token ownership.  `ledgerAB` is fully
consistent (for each of `A`, `B`, `C` the index count equals the number of
tokens owned), yet one successful `TransferFrom` whose authorized `from` is
the token's approved party (`B`) rather than its owner (`A`) leaves `A` with
a stale index entry: afterwards `BalanceOf A = 1` while no token has owner
`A`, because the code deletes the balance entry keyed by `from` instead of
the one keyed by the current owner. -/
theorem transferFrom_breaks_index_consistency :
    (BalanceOf ledgerAB "A" = 1 ∧ ownedCount ledgerAB "A" = 1) ∧
    (BalanceOf ledgerAB "B" = 0 ∧ ownedCount ledgerAB "B" = 0) ∧
    (BalanceOf ledgerAB "C" = 0 ∧ ownedCount ledgerAB "C" = 0) ∧
    (TransferFrom ⟨"B", "Org2MSP"⟩ ledgerAB "B" "C" "1").1 = .ok () ∧
    BalanceOf (TransferFrom ⟨"B", "Org2MSP"⟩ ledgerAB "B" "C" "1").2.1 "A"
      = 1 ∧
    ownedCount (TransferFrom ⟨"B", "Org2MSP"⟩ ledgerAB "B" "C" "1").2.1 "A"
      = 0 ∧
    ReadNFT (TransferFrom ⟨"B", "Org2MSP"⟩ ledgerAB "B" "C" "1").2.1 "1"
      = .ok { tokenAB with Owner := "C", Approved := "" } :=
  ⟨⟨rfl, rfl⟩, ⟨rfl, rfl⟩, ⟨rfl, rfl⟩, rfl, rfl, rfl, rfl⟩

/-- C2: minting a token that does not exist fails.  On the empty ledger, with
an integer-parsable tokenID and a caller of the issuer organization
`Org1MSP`, `MintWithTokenURI` propagates `ReadNFT`'s not-found error instead
of treating it as "not yet minted", so it returns an error and writes
nothing. -/
theorem mintWithTokenURI_fails_on_fresh_token :
    getState emptyLedger (nftKey "1") = none ∧
    atoi? "1" = some 1 ∧
    MintWithTokenURI ⟨"A", "Org1MSP"⟩ emptyLedger "1" "u"
      = (.error (.cannotGetToken "1" (.doesNotExist "1")), emptyLedger, []) :=
  ⟨rfl, rfl, rfl⟩

/-- C3: from any ledger state, `SetApprovalForAll` by caller `A` for operator
`B` with `approved = true` makes `IsApprovedForAll A B` return `true`, and a
subsequent `SetApprovalForAll` with `approved = false` makes it return
`false`: the stored approval record round-trips the flag. -/
theorem setApprovalForAll_roundtrip (l : Ledger) (ctx : Ctx) (B : String) :
    IsApprovedForAll (SetApprovalForAll ctx l B true).2.1 ctx.clientID B
      = .ok true ∧
    IsApprovedForAll
      (SetApprovalForAll ctx (SetApprovalForAll ctx l B true).2.1 B false).2.1
      ctx.clientID B = .ok false := by
  constructor <;>
    simp [SetApprovalForAll, IsApprovedForAll, isApprovedForAllState,
      getState_putState_self]

/-- C4: for an existing token with an integer-parsable id, `TransferFrom`
succeeds exactly when the `from` argument is the token's owner, its approved
party, or an operator-for-all of its owner (the invoking identity plays no
role), and every successful transfer stores the token with owner `to` and an
empty approved field, so `GetApproved` afterwards returns the empty
string. -/
theorem transferFrom_auth_and_clears_approval
    (ctx : Ctx) (l : Ledger) (from_ to_ TokenID : String) (n : Int) (t : Token)
    (hparse : atoi? TokenID = some n)
    (hread : ReadNFT l TokenID = .ok t) :
    ((TransferFrom ctx l from_ to_ TokenID).1 = .ok () ↔
      (from_ = t.Owner ∨ from_ = t.Approved ∨
        isApprovedForAllState l t.Owner from_ = true)) ∧
    ((TransferFrom ctx l from_ to_ TokenID).1 = .ok () →
      ReadNFT (TransferFrom ctx l from_ to_ TokenID).2.1 TokenID
          = .ok { t with Owner := to_, Approved := "" } ∧
      GetApproved (TransferFrom ctx l from_ to_ TokenID).2.1 TokenID
          = .ok "") := by
  have hT : TransferFrom ctx l from_ to_ TokenID =
      (if t.Owner ≠ from_ ∧ t.Approved ≠ from_ ∧
          isApprovedForAllState l t.Owner from_ = false then
        (.error (.notAuthorizedOperator from_ t.Owner TokenID), l, [])
      else
        (.ok (), putState (deleteState (putState l (nftKey TokenID)
            (.tokenVal { t with Owner := to_, Approved := "" }))
            (balanceKey from_ TokenID)) (balanceKey to_ TokenID) .nullByte,
          [("Transfer",
            .transfer { from_ := from_, to_ := to_, TokenID := n })])) := by
    unfold TransferFrom
    rw [hparse, hread]
    rfl
  by_cases hc : t.Owner ≠ from_ ∧ t.Approved ≠ from_ ∧
      isApprovedForAllState l t.Owner from_ = false
  · rw [hT, if_pos hc]
    constructor
    · constructor
      · intro habs
        exact absurd habs (by simp)
      · intro hr
        rcases hr with h | h | h
        · exact absurd h.symm hc.1
        · exact absurd h.symm hc.2.1
        · rw [hc.2.2] at h
          exact absurd h (by simp)
    · intro habs
      exact absurd habs (by simp)
  · rw [hT, if_neg hc]
    have hget : getState (putState (deleteState (putState l (nftKey TokenID)
        (.tokenVal { t with Owner := to_, Approved := "" }))
        (balanceKey from_ TokenID)) (balanceKey to_ TokenID) .nullByte)
          (nftKey TokenID)
        = some (.tokenVal { t with Owner := to_, Approved := "" }) := by
      rw [getState_putState_ne _ _ _ _
        (Ne.symm (nftKey_ne_balanceKey to_ TokenID TokenID))]
      rw [getState_deleteState_ne _ _ _
        (Ne.symm (nftKey_ne_balanceKey from_ TokenID TokenID))]
      exact getState_putState_self _ _ _
    have hreadNew : ReadNFT (putState (deleteState (putState l (nftKey TokenID)
        (.tokenVal { t with Owner := to_, Approved := "" }))
        (balanceKey from_ TokenID)) (balanceKey to_ TokenID) .nullByte) TokenID
        = .ok { t with Owner := to_, Approved := "" } := by
      unfold ReadNFT
      rw [hget]
    constructor
    · constructor
      · intro _
        by_contra hr
        push_neg at hr
        refine hc ⟨fun he => hr.1 he.symm, fun he => hr.2.1 he.symm, ?_⟩
        cases hb : isApprovedForAllState l t.Owner from_
        · rfl
        · exact absurd hb hr.2.2
      · intro _
        rfl
    · intro _
      refine ⟨hreadNew, ?_⟩
      unfold GetApproved
      rw [hreadNew]

end ERC721

namespace ERC721

/-- C5 counterexample: a physically stored token record whose owner field is
the empty string is returned successfully by `ReadNFT`, not rejected as
not-found. -/
theorem readNFT_emptyOwner_ok :
    ReadNFT [(nftKey "1",
        .tokenVal { TokenID := 1, TokenURI := "u", Name := "", Symbol := ""
                    Owner := "", Approved := "" })] "1"
      = .ok { TokenID := 1, TokenURI := "u", Name := "", Symbol := ""
              Owner := "", Approved := "" } := rfl

/-- C5 amended: `ReadNFT` fails with its not-found condition exactly when no
record (or an empty record) is stored under the token's `nft` composite key;
whenever a decodable record is stored it returns it, regardless of whether
the record's owner field is empty (empty-owner filtering is done by callers
such as `OwnerOf` and `MintWithTokenURI`, not by `ReadNFT`). -/
theorem readNFT_spec (l : Ledger) (TokenID : String) :
    (ReadNFT l TokenID = .error (.doesNotExist TokenID) ↔
      (getState l (nftKey TokenID) = none ∨
        getState l (nftKey TokenID) = some (.rawBytes ""))) ∧
    (∀ t : Token, ReadNFT l TokenID = .ok t ↔
      getState l (nftKey TokenID) = some (.tokenVal t)) := by
  unfold ReadNFT
  rcases hg : getState l (nftKey TokenID) with _ | v
  · simp
  · rcases v with t | a | _ | s
    · simp
    · simp
    · simp
    · by_cases hs : s = "" <;> simp [hs]

/-- C6: `Burn` of an existing token succeeds only when the caller is the
token's owner; any other caller — in particular one holding only the
per-token approval or an operator-for-all grant — gets `false` back with the
ledger unchanged and no event emitted. -/
theorem burn_requires_true_ownership
    (ctx : Ctx) (l : Ledger) (TokenID : String) (t : Token)
    (hread : ReadNFT l TokenID = .ok t) :
    ((Burn ctx l TokenID).1 = true → ctx.clientID = t.Owner) ∧
    (ctx.clientID ≠ t.Owner → Burn ctx l TokenID = (false, l, [])) := by
  cases hA : atoi? TokenID with
  | none =>
    have hB : Burn ctx l TokenID = (false, l, []) := by
      unfold Burn
      rw [hA]
    rw [hB]
    exact ⟨fun habs => absurd habs (by simp), fun _ => rfl⟩
  | some nn =>
    have hB : Burn ctx l TokenID =
        (if t.Owner ≠ ctx.clientID then (false, l, [])
         else (true, deleteState (deleteState l (nftKey TokenID))
             (balanceKey ctx.clientID TokenID),
           [("Transfer", .transfer
             { from_ := ctx.clientID, to_ := "0x0", TokenID := nn })])) := by
      unfold Burn
      rw [hA, hread]
    by_cases hne : t.Owner = ctx.clientID
    · rw [hB, if_neg (by simp [hne])]
      exact ⟨fun _ => hne.symm, fun hcc => absurd hne.symm hcc⟩
    · rw [hB, if_pos hne]
      exact ⟨fun habs => absurd habs (by simp), fun _ => rfl⟩

/-- C6 witness: burning `tokenAB` (owner `A`) as caller `B`, who holds the
per-token approval but is not the owner, fails with no state change. -/
theorem burn_requires_true_ownership_witness :
    (((Burn ⟨"B", "Org2MSP"⟩ ledgerAB "1").1 = true → "B" = tokenAB.Owner) ∧
      ("B" ≠ tokenAB.Owner →
        Burn ⟨"B", "Org2MSP"⟩ ledgerAB "1" = (false, ledgerAB, []))) ∧
    "B" ≠ tokenAB.Owner :=
  ⟨burn_requires_true_ownership ⟨"B", "Org2MSP"⟩ ledgerAB "1" tokenAB rfl,
    by decide⟩

/-- C7: minting a tokenID whose stored record already has a non-empty owner
fails with no ledger change and no event, and when the caller belongs to the
issuer organization the failure is the already-minted error. -/
theorem mint_create_only
    (ctx : Ctx) (l : Ledger) (TokenID TokenURI : String) (t : Token)
    (hread : ReadNFT l TokenID = .ok t) (howner : t.Owner ≠ "") :
    (∃ e, (MintWithTokenURI ctx l TokenID TokenURI).1 = .error e) ∧
    (MintWithTokenURI ctx l TokenID TokenURI).2.1 = l ∧
    (MintWithTokenURI ctx l TokenID TokenURI).2.2 = [] ∧
    (ctx.clientMSPID = "Org1MSP" →
      (MintWithTokenURI ctx l TokenID TokenURI).1
        = .error (.alreadyMinted TokenID)) := by
  by_cases hm : ctx.clientMSPID = "Org1MSP"
  · have hB : MintWithTokenURI ctx l TokenID TokenURI
        = (.error (.alreadyMinted TokenID), l, []) := by
      unfold MintWithTokenURI
      rw [if_neg (by simp [hm])]
      simp only [hread]
      rw [if_pos howner]
    rw [hB]
    exact ⟨⟨_, rfl⟩, rfl, rfl, fun _ => rfl⟩
  · have hB : MintWithTokenURI ctx l TokenID TokenURI
        = (.error .clientNotAuthorized, l, []) := by
      unfold MintWithTokenURI
      rw [if_pos hm]
    rw [hB]
    exact ⟨⟨_, rfl⟩, rfl, rfl, fun hc => absurd hc hm⟩

/-- C7 witness: a second mint of token `1` (already owned by `A`) by the
issuer fails with the already-minted error and leaves everything unchanged. -/
theorem mint_create_only_witness :
    (∃ e, (MintWithTokenURI ⟨"A", "Org1MSP"⟩ ledgerAB "1" "u2").1
      = .error e) ∧
    (MintWithTokenURI ⟨"A", "Org1MSP"⟩ ledgerAB "1" "u2").2.1 = ledgerAB ∧
    (MintWithTokenURI ⟨"A", "Org1MSP"⟩ ledgerAB "1" "u2").2.2 = [] ∧
    ((Ctx.mk "A" "Org1MSP").clientMSPID = "Org1MSP" →
      (MintWithTokenURI ⟨"A", "Org1MSP"⟩ ledgerAB "1" "u2").1
        = .error (.alreadyMinted "1")) :=
  mint_create_only ⟨"A", "Org1MSP"⟩ ledgerAB "1" "u2" tokenAB rfl (by decide)

end ERC721

namespace ERC721

/-- C8: for an existing token with an integer-parsable id, `Approve` returns
`true` exactly when the `approved` account exists as a plain state key and
the caller is the token's owner or an operator-for-all of the owner; on
success the stored token's approved field equals the `approved` argument.  A
caller who is neither owner nor operator — in particular one holding only
the per-token approval — always gets `false`. -/
theorem approve_owner_or_operator_only
    (ctx : Ctx) (l : Ledger) (approved TokenID : String) (n : Int) (t : Token)
    (hparse : atoi? TokenID = some n)
    (hread : ReadNFT l TokenID = .ok t) :
    ((Approve ctx l approved TokenID).1 = true ↔
      ((getState l (Key.simple approved)).isSome ∧
        (ctx.clientID = t.Owner ∨
          isApprovedForAllState l t.Owner ctx.clientID = true))) ∧
    ((Approve ctx l approved TokenID).1 = true →
      ReadNFT (Approve ctx l approved TokenID).2.1 TokenID
        = .ok { t with Approved := approved }) ∧
    (ctx.clientID ≠ t.Owner →
      isApprovedForAllState l t.Owner ctx.clientID = false →
      (Approve ctx l approved TokenID).1 = false) := by
  cases hacct : getState l (Key.simple approved) with
  | none =>
    have hB : Approve ctx l approved TokenID = (false, l, []) := by
      unfold Approve
      rw [hparse]
      simp only [hread]
      rw [hacct]
    rw [hB]
    refine ⟨?_, ?_, ?_⟩
    · constructor
      · intro habs
        exact absurd habs (by simp)
      · intro hr
        exact absurd hr.1 (by simp)
    · intro habs
      exact absurd habs (by simp)
    · intro _ _
      rfl
  | some v =>
    have hB : Approve ctx l approved TokenID =
        (if ctx.clientID ≠ t.Owner ∧
            isApprovedForAllState l t.Owner ctx.clientID = false then
          (false, l, [])
        else
          (true, putState l (nftKey TokenID)
              (.tokenVal { t with Approved := approved }),
            [("Approval", .approval
              { owner := t.Owner, approved := approved, TokenID := n })])) := by
      unfold Approve
      rw [hparse]
      simp only [hread]
      rw [hacct]
      rfl
    by_cases hc : ctx.clientID ≠ t.Owner ∧
        isApprovedForAllState l t.Owner ctx.clientID = false
    · rw [hB, if_pos hc]
      refine ⟨?_, ?_, ?_⟩
      · constructor
        · intro habs
          exact absurd habs (by simp)
        · intro hr
          rcases hr.2 with h | h
          · exact absurd h hc.1
          · rw [hc.2] at h
            exact absurd h (by simp)
      · intro habs
        exact absurd habs (by simp)
      · intro _ _
        rfl
    · rw [hB, if_neg hc]
      push_neg at hc
      refine ⟨?_, ?_, ?_⟩
      · constructor
        · intro _
          refine ⟨rfl, ?_⟩
          by_cases ho : ctx.clientID = t.Owner
          · exact Or.inl ho
          · cases hb : isApprovedForAllState l t.Owner ctx.clientID
            · exact absurd hb (hc ho)
            · exact Or.inr rfl
        · intro _
          rfl
      · intro _
        unfold ReadNFT
        rw [getState_putState_self]
      · intro ho hb
        exact absurd hb (hc ho)

/-- C8 witness: owner `A` approves existing account `B` on token `1`:
the call returns `true` and the stored token's approved field is `B`. -/
theorem approve_owner_or_operator_only_witness :
    ((Approve ⟨"A", "Org1MSP"⟩ ledgerABacct "B" "1").1 = true ↔
      ((getState ledgerABacct (Key.simple "B")).isSome ∧
        ("A" = tokenAB.Owner ∨
          isApprovedForAllState ledgerABacct tokenAB.Owner "A" = true))) ∧
    ((Approve ⟨"A", "Org1MSP"⟩ ledgerABacct "B" "1").1 = true →
      ReadNFT (Approve ⟨"A", "Org1MSP"⟩ ledgerABacct "B" "1").2.1 "1"
        = .ok { tokenAB with Approved := "B" }) ∧
    ("A" ≠ tokenAB.Owner →
      isApprovedForAllState ledgerABacct tokenAB.Owner "A" = false →
      (Approve ⟨"A", "Org1MSP"⟩ ledgerABacct "B" "1").1 = false) :=
  approve_owner_or_operator_only ⟨"A", "Org1MSP"⟩ ledgerABacct "B" "1" 1
    tokenAB rfl rfl

/-- C9: determinism.  The step relation of the contract is functional: one
operation, one caller context and one ledger snapshot admit exactly one
outcome (result, writes and events); two runs on the same inputs coincide. -/
theorem exec_deterministic (op : Op) (ctx : Ctx) (l : Ledger)
    (o₁ o₂ : Outcome) (h₁ : Steps op ctx l o₁) (h₂ : Steps op ctx l o₂) :
    o₁ = o₂ := by
  unfold Steps at h₁ h₂
  rw [← h₁, ← h₂]

/-- C9 witness: two runs of the same mint on the same snapshot produce the
same outcome. -/
theorem exec_deterministic_witness :
    (Outcome.mk
      (.exceptUnit (.error (.cannotGetToken "1" (.doesNotExist "1"))))
      emptyLedger [])
    = ⟨.exceptUnit (.error (.cannotGetToken "1" (.doesNotExist "1"))),
        emptyLedger, []⟩ :=
  exec_deterministic (.mintWithTokenURI "1" "u") ⟨"A", "Org1MSP"⟩
    emptyLedger _ _ rfl rfl

/-- C10: `TransferFrom` never validates `to`.  For an existing token and an
authorized `from`, the transfer succeeds for every `to` — the empty string
included — storing the record with owner `to`, adding a balance entry keyed
by `to`, and when `to` is empty the resulting record is one `OwnerOf`
treats as non-existent. -/
theorem transferFrom_no_to_validation
    (ctx : Ctx) (l : Ledger) (from_ to_ TokenID : String) (n : Int) (t : Token)
    (hparse : atoi? TokenID = some n)
    (hread : ReadNFT l TokenID = .ok t)
    (hauth : from_ = t.Owner ∨ from_ = t.Approved ∨
      isApprovedForAllState l t.Owner from_ = true) :
    (TransferFrom ctx l from_ to_ TokenID).1 = .ok () ∧
    getState (TransferFrom ctx l from_ to_ TokenID).2.1 (nftKey TokenID)
      = some (.tokenVal { t with Owner := to_, Approved := "" }) ∧
    getState (TransferFrom ctx l from_ to_ TokenID).2.1
        (balanceKey to_ TokenID) = some .nullByte ∧
    (to_ = "" →
      OwnerOf (TransferFrom ctx l from_ to_ TokenID).2.1 TokenID
        = .error (.noOwnerAssigned TokenID)) := by
  have hT : TransferFrom ctx l from_ to_ TokenID =
      (if t.Owner ≠ from_ ∧ t.Approved ≠ from_ ∧
          isApprovedForAllState l t.Owner from_ = false then
        (.error (.notAuthorizedOperator from_ t.Owner TokenID), l, [])
      else
        (.ok (), putState (deleteState (putState l (nftKey TokenID)
            (.tokenVal { t with Owner := to_, Approved := "" }))
            (balanceKey from_ TokenID)) (balanceKey to_ TokenID) .nullByte,
          [("Transfer",
            .transfer { from_ := from_, to_ := to_, TokenID := n })])) := by
    unfold TransferFrom
    rw [hparse, hread]
    rfl
  have hc : ¬(t.Owner ≠ from_ ∧ t.Approved ≠ from_ ∧
      isApprovedForAllState l t.Owner from_ = false) := by
    intro hc
    rcases hauth with h | h | h
    · exact hc.1 h.symm
    · exact hc.2.1 h.symm
    · rw [hc.2.2] at h
      exact absurd h (by simp)
  rw [hT, if_neg hc]
  have hget : getState (putState (deleteState (putState l (nftKey TokenID)
      (.tokenVal { t with Owner := to_, Approved := "" }))
      (balanceKey from_ TokenID)) (balanceKey to_ TokenID) .nullByte)
        (nftKey TokenID)
      = some (.tokenVal { t with Owner := to_, Approved := "" }) := by
    rw [getState_putState_ne _ _ _ _
      (Ne.symm (nftKey_ne_balanceKey to_ TokenID TokenID))]
    rw [getState_deleteState_ne _ _ _
      (Ne.symm (nftKey_ne_balanceKey from_ TokenID TokenID))]
    exact getState_putState_self _ _ _
  refine ⟨rfl, hget, getState_putState_self _ _ _, ?_⟩
  intro hto
  unfold OwnerOf ReadNFT
  rw [hget]
  simp [hto]

/-- C10 witness: transferring token `1` with authorized `from = B` to the
empty-string recipient succeeds, stores an owner-less record, adds a balance
entry keyed by the empty string, and `OwnerOf` then fails. -/
theorem transferFrom_no_to_validation_witness :
    (TransferFrom ⟨"X", "Org2MSP"⟩ ledgerAB "B" "" "1").1 = .ok () ∧
    getState (TransferFrom ⟨"X", "Org2MSP"⟩ ledgerAB "B" "" "1").2.1
        (nftKey "1")
      = some (.tokenVal { tokenAB with Owner := "", Approved := "" }) ∧
    getState (TransferFrom ⟨"X", "Org2MSP"⟩ ledgerAB "B" "" "1").2.1
        (balanceKey "" "1") = some .nullByte ∧
    ("" = "" →
      OwnerOf (TransferFrom ⟨"X", "Org2MSP"⟩ ledgerAB "B" "" "1").2.1 "1"
        = .error (.noOwnerAssigned "1")) :=
  transferFrom_no_to_validation ⟨"X", "Org2MSP"⟩ ledgerAB "B" "" "1" 1
    tokenAB rfl rfl (Or.inr (Or.inl rfl))

/-- C4 witness: transferring token `1` (owner `A`) with `from = B`, the
approved party, as an unrelated caller `X`: the authorization predicate
holds, the transfer succeeds, and the approval is cleared. -/
theorem transferFrom_auth_and_clears_approval_witness :
    ((TransferFrom ⟨"X", "Org2MSP"⟩ ledgerAB "B" "C" "1").1 = .ok () ↔
      ("B" = tokenAB.Owner ∨ "B" = tokenAB.Approved ∨
        isApprovedForAllState ledgerAB tokenAB.Owner "B" = true)) ∧
    ((TransferFrom ⟨"X", "Org2MSP"⟩ ledgerAB "B" "C" "1").1 = .ok () →
      ReadNFT (TransferFrom ⟨"X", "Org2MSP"⟩ ledgerAB "B" "C" "1").2.1 "1"
          = .ok { tokenAB with Owner := "C", Approved := "" } ∧
      GetApproved (TransferFrom ⟨"X", "Org2MSP"⟩ ledgerAB "B" "C" "1").2.1 "1"
          = .ok "") :=
  transferFrom_auth_and_clears_approval ⟨"X", "Org2MSP"⟩ ledgerAB "B" "C" "1"
    1 tokenAB rfl rfl

end ERC721
